import Mathlib

/-!
Verification of the flowform core (packages/core): field/value data model,
type-specific validators, the validation dispatcher, and the single-turn
orchestrator (`runLlmStep`), shallowly embedded from the TypeScript source.

Host primitives of the JavaScript runtime (JSON.parse, new Date, Number,
String, Object.keys) are modelled explicitly where the source relies on
them; each such model carries a comment naming the primitive it stands for.
-/

namespace Flowform

/-! ## JavaScript runtime value model

Values flowing through the core are JavaScript values: the `FieldValue`
union of the source is `string | number | Date | null`, and the parsed
LLM reply is an arbitrary JSON value.  One inductive covers both, plus
`undefined` (which the dispatcher's required-check tests for). -/

/-- A JavaScript number: `none` models NaN, `some q` a finite value.
(Claims exercised here do not depend on floating-point rounding, so finite
numbers are modelled as rationals.) -/
abbrev JsNum := Option ℚ

/-- A JavaScript runtime value as the core sees it: JSON values plus
`Date` objects (epoch day count; `none` models an Invalid Date) and
`undefined`. -/
inductive JsValue where
  | null
  | undefined
  | bool (b : Bool)
  | num (q : JsNum)
  | str (s : String)
  | date (t : Option Int)
  | arr (xs : List JsValue)
  | obj (kvs : List (String × JsValue))
deriving Repr

/-! ## Host string/number primitives -/

/-- The character class matched by the regex escape `\s` (ECMAScript
WhiteSpace and LineTerminator), also the set removed by `String.prototype.trim`. -/
def isJsWhitespace (c : Char) : Bool :=
  let n := c.toNat
  n == 0x20 || n == 0x09 || n == 0x0a || n == 0x0d || n == 0x0b || n == 0x0c ||
  n == 0xa0 || n == 0x1680 || (decide (0x2000 ≤ n) && decide (n ≤ 0x200a)) ||
  n == 0x2028 || n == 0x2029 || n == 0x202f || n == 0x205f || n == 0x3000 ||
  n == 0xfeff

/-- `String.prototype.trim`, on the character list of the string. -/
def jsTrimList (l : List Char) : List Char :=
  ((l.dropWhile isJsWhitespace).reverse.dropWhile isJsWhitespace).reverse

/-- `String.prototype.trim`. -/
def jsTrim (s : String) : String :=
  (jsTrimList s.data).asString

/-- Leading decimal digits of a character list, as a natural number
accumulated left to right; `none` when the list does not start with a digit. -/
def leadingDigits : List Char → Option Nat → Option Nat
  | c :: rest, acc =>
      if c.isDigit then
        leadingDigits rest (some ((acc.getD 0) * 10 + (c.toNat - '0'.toNat)))
      else acc
  | [], acc => acc

/-- The host `parseInt(-, 10)`: skip leading whitespace, optional sign,
then read leading decimal digits, ignoring any trailing garbage; `none`
models NaN (no digits at all). -/
def jsParseInt (l : List Char) : Option Int :=
  match l.dropWhile isJsWhitespace with
  | '-' :: rest => (leadingDigits rest none).map (fun n => -(n : Int))
  | '+' :: rest => (leadingDigits rest none).map (fun n => (n : Int))
  | rest => (leadingDigits rest none).map (fun n => (n : Int))

/-- Digits-with-fraction reader for `jsStringToNumber`: consumes the whole
list or fails.  Accepts `digits`, `digits.digits`, `digits.`, `.digits`. -/
def readDecimal (l : List Char) : Option ℚ :=
  let intPart := l.takeWhile Char.isDigit
  let rest := l.dropWhile Char.isDigit
  let intVal : ℚ := (intPart.foldl (fun a c => a * 10 + (c.toNat - '0'.toNat)) (0 : Nat) : Nat)
  match rest with
  | [] => if intPart.isEmpty then none else some intVal
  | '.' :: frac =>
      if frac.all Char.isDigit ∧ ¬(intPart.isEmpty ∧ frac.isEmpty) then
        some (intVal + (frac.foldl (fun a c => a * 10 + (c.toNat - '0'.toNat)) (0 : Nat) : Nat) /
          ((10 : ℚ) ^ frac.length))
      else none
  | _ => none

/-- The host string-to-number coercion `Number(string)`, modelled for plain
decimal literals: a trimmed empty string is 0, an optionally signed decimal
literal is its value, anything else is NaN (`none`).  (Hex, exponent and
Infinity forms of the host grammar are outside the inputs the claims
exercise; they would be further `some` cases.) -/
def jsStringToNumber (s : String) : JsNum :=
  match jsTrimList s.data with
  | [] => some 0
  | '-' :: rest => (readDecimal rest).map (fun q => -q)
  | '+' :: rest => readDecimal rest
  | rest => readDecimal rest

/-- Host number-to-string conversion, modelled exactly for integral values
(decimal digits, NaN prints as its name); non-integral formatting is a host
detail no claim depends on. -/
def jsNumToString (q : JsNum) : String :=
  match q with
  | none => "NaN"
  | some q => if q.den = 1 then toString q.num else toString q

/-- The host `String(value)` conversion.  Array/Date/object stringification
follows the host conventions (join with commas, a constant object tag); the
Date string is host- and locale-dependent and is modelled by a stable
stand-in (no claim inspects it). -/
def jsToString : JsValue → String
  | .null => "null"
  | .undefined => "undefined"
  | .bool b => if b then "true" else "false"
  | .num q => jsNumToString q
  | .str s => s
  | .date none => "Invalid Date"
  | .date (some t) => "Date(" ++ toString t ++ ")"
  | .arr xs => String.intercalate "," (xs.attach.map (fun x => jsToString x.1))
  | .obj _ => "[object Object]"
decreasing_by
  have := List.sizeOf_lt_of_mem x.2
  simp only [JsValue.arr.sizeOf_spec]
  omega

/-- The host `Number(value)` coercion. A Date coerces to its epoch
milliseconds; arrays coerce through their string form; plain objects are NaN. -/
def jsToNumber : JsValue → JsNum
  | .null => some 0
  | .undefined => none
  | .bool b => some (if b then 1 else 0)
  | .num q => q
  | .str s => jsStringToNumber s
  | .date t => t.map (fun d => (d : ℚ) * 86400000)
  | .arr xs => jsStringToNumber (jsToString (.arr xs))
  | .obj _ => none

/-- The `<` comparison of JavaScript numbers: any comparison with NaN is false. -/
def jsLt (a b : JsNum) : Bool :=
  match a, b with
  | some x, some y => decide (x < y)
  | _, _ => false

/-! ## Data model (packages/core/src/types) -/

/-- Supported field types (`enum FieldType`). -/
inductive FieldType where
  | TEXT | EMAIL | PHONE | NUMBER | DATE | ENUM | LONG_TEXT
deriving DecidableEq, Repr

/-- Optional validation constraints (`interface ValidationRule`). -/
structure ValidationRule where
  min : Option JsNum := none
  max : Option JsNum := none
  pattern : Option String := none
  options : Option (List String) := none
deriving Repr

/-- One field of a form (`interface FormField`). -/
structure FormField where
  id : String
  name : String
  label : String
  type : FieldType
  required : Bool
  validation : Option ValidationRule := none
  order : Int
  description : Option String := none
deriving Repr

/-- The complete form structure (`interface FormDefinition`); timestamps as
epoch numbers. -/
structure FormDefinition where
  id : String
  name : String
  description : Option String := none
  fields : List FormField
  createdAt : Int := 0
  updatedAt : Int := 0
deriving Repr

/-- Who sent a message (`enum TurnRole`). -/
inductive TurnRole where
  | USER | ASSISTANT
deriving DecidableEq, Repr

/-- Lifecycle states (`enum SessionStatus`). -/
inductive SessionStatus where
  | ACTIVE | COMPLETED | ABANDONED
deriving DecidableEq, Repr

/-- One message in the conversation (`interface SessionTurn`). -/
structure SessionTurn where
  role : TurnRole
  content : String
  timestamp : Int := 0
deriving Repr

/-- A collected field value (`interface SessionField`). -/
structure SessionField where
  fieldId : String
  value : JsValue
  collectedAt : Int := 0
deriving Repr

/-- Complete session state (`interface Session`). -/
structure Session where
  id : String
  formId : String
  status : SessionStatus := .ACTIVE
  turns : List SessionTurn := []
  fields : List SessionField := []
  startedAt : Int := 0
  completedAt : Option Int := none
deriving Repr

/-- Validation outcome (`type ValidationResult`): success, or failure with
one human-readable reason. -/
inductive ValidationResult where
  | valid
  | invalid (error : String)
deriving DecidableEq, Repr

/-! ## Validators (packages/core/src/validation/validators.ts) -/

/-- The character class `[^\s@]` of `EMAIL_REGEX`. -/
def emailChar (c : Char) : Bool :=
  !isJsWhitespace c && c != '@'

/-- The test of `EMAIL_REGEX`, the pattern `[^\s@]+` then `@` then `[^\s@]+`
then `.` then `[^\s@]+`, anchored on both sides, on the string's characters.
Because `[^\s@]` excludes `@`, a match forces the pattern's `@` to be the
string's first (and only) `@`: everything before it is the nonempty local
part, everything after it the domain.  The domain must be a nonempty
`[^\s@]` run that can be split around a `.` with nonempty sides, i.e. it
contains a `.` that is neither its first nor its last character. -/
def emailRegexTest (l : List Char) : Bool :=
  match l.dropWhile (fun c => c != '@') with
  | '@' :: dom =>
      let loc := l.takeWhile (fun c => c != '@')
      !loc.isEmpty && loc.all emailChar && dom.all emailChar &&
        dom.tail.dropLast.contains '.'
  | _ => false

/-- `validateEmail`: empty or blank strings and strings failing
`EMAIL_REGEX` are rejected with "Invalid email format". -/
def validateEmail (value : String) : ValidationResult :=
  -- `!value || value.trim() === ''`; the only falsy string is ''
  if value = "" ∨ jsTrim value = "" then .invalid "Invalid email format"
  else if !emailRegexTest value.data then .invalid "Invalid email format"
  else .valid

/-- The character class of `PHONE_REGEX`: digits, whitespace, plus, minus,
parentheses. -/
def phoneChar (c : Char) : Bool :=
  c.isDigit || isJsWhitespace c || c == '+' || c == '-' || c == '(' || c == ')'

/-- `validatePhone`: at least `MIN_PHONE_DIGITS = 10` digits after stripping
non-digits, and the anchored `PHONE_REGEX` (a nonempty run of `phoneChar`)
overall. -/
def validatePhone (value : String) : ValidationResult :=
  if value = "" ∨ jsTrim value = "" then .invalid "Invalid phone format"
  else if (value.data.filter Char.isDigit).length < 10 then
    .invalid "Invalid phone format"
  else if !(!value.data.isEmpty && value.data.all phoneChar) then
    .invalid "Invalid phone format"
  else .valid

/-- `validateNumber`, second guard: `rules.max !== undefined && value > rules.max`. -/
def validateNumberMax (value : JsNum) (max : Option JsNum) : ValidationResult :=
  match max with
  | some m =>
      if jsLt m value then .invalid ("Number must be at most " ++ jsNumToString m)
      else .valid
  | none => .valid

/-- `validateNumber`: bounds check against optional min/max; a comparison
involving NaN is false, so NaN violates no bound. -/
def validateNumber (value : JsNum) (min max : Option JsNum) : ValidationResult :=
  match min with
  | some m =>
      if jsLt value m then .invalid ("Number must be at least " ++ jsNumToString m)
      else validateNumberMax value max
  | none => validateNumberMax value max

/-- `validateEnum`: exact, case-sensitive membership in the options list. -/
def validateEnum (value : String) (options : List String) : ValidationResult :=
  if ¬ options.contains value then
    .invalid ("Value must be one of: " ++ String.intercalate ", " options)
  else .valid

/-! ## Calendar arithmetic for the host Date

The proleptic-Gregorian day-count conversions used by ECMAScript's
`MakeDay`/`getUTC*` operations, on days since the epoch 1970-01-01. -/

/-- Days since the epoch of the civil date `(y, m, d)` (`m` in 1..12). -/
def daysFromCivil (y m d : Int) : Int :=
  let y' := y - (if m ≤ 2 then 1 else 0)
  let era := Int.fdiv y' 400
  let yoe := y' - era * 400
  let mp := if m > 2 then m - 3 else m + 9
  let doy := Int.fdiv (153 * mp + 2) 5 + d - 1
  let doe := yoe * 365 + Int.fdiv yoe 4 - Int.fdiv yoe 100 + doy
  era * 146097 + doe - 719468

/-- The civil date `(y, m, d)` (`m` in 1..12) of a count of days since the
epoch; the inverse of `daysFromCivil`. -/
def civilFromDays (z : Int) : Int × Int × Int :=
  let z' := z + 719468
  let era := Int.fdiv z' 146097
  let doe := z' - era * 146097
  let yoe := Int.fdiv (doe - Int.fdiv doe 1460 + Int.fdiv doe 36524 - Int.fdiv doe 146096) 365
  let y := yoe + era * 400
  let doy := doe - (365 * yoe + Int.fdiv yoe 4 - Int.fdiv yoe 100)
  let mp := Int.fdiv (5 * doy + 2) 153
  let d := doy - Int.fdiv (153 * mp + 2) 5 + 1
  let m := mp + (if mp < 10 then 3 else -9)
  (y + (if m ≤ 2 then 1 else 0), m, d)

/-- `Date.prototype.getUTCFullYear` of a day count. -/
def getUTCFullYear (t : Int) : Int := (civilFromDays t).1

/-- `Date.prototype.getUTCMonth` of a day count: zero-based month. -/
def getUTCMonth (t : Int) : Int := (civilFromDays t).2.1 - 1

/-- `Date.prototype.getUTCDate` of a day count: day of month. -/
def getUTCDate (t : Int) : Int := (civilFromDays t).2.2

/-- ECMAScript `MakeDay(year, month, date)` (month zero-based): the day
count of the first of the month, plus `date - 1` — day overflow is plain
day arithmetic, so February 30th lands in March. -/
def jsMakeDay (year month day : Int) : Int :=
  let ym := year + Int.fdiv month 12
  let mn := Int.emod month 12
  daysFromCivil ym (mn + 1) 1 + (day - 1)

/-- The host `new Date(string)` parse, modelled for date-only ISO strings
`YYYY-MM-DD` (parsed as UTC per the ECMAScript Date Time String Format,
with day overflow normalized by `MakeDay`); every other string is modelled
as an Invalid Date (`none`).  The host also accepts date-time forms and
legacy formats; the claims only exercise date-only inputs, for which this
model agrees with the host. -/
def jsParseDateOnly (s : String) : Option Int :=
  match s.data with
  | [y1, y2, y3, y4, h1, m1, m2, h2, d1, d2] =>
      if [y1, y2, y3, y4, m1, m2, d1, d2].all Char.isDigit && h1 == '-' && h2 == '-' then
        match jsParseInt [y1, y2, y3, y4], jsParseInt [m1, m2], jsParseInt [d1, d2] with
        | some y, some m, some d =>
            if 1 ≤ m ∧ m ≤ 12 ∧ 1 ≤ d ∧ d ≤ 31 then some (jsMakeDay y (m - 1) d)
            else none
        | _, _, _ => none
      else none
  | _ => none

/-- The test of the source's `isoFormat` regex, four digits, a hyphen, two
digits, a hyphen, two digits, anchored only at the start: any tail may follow. -/
def isoFormatTest (l : List Char) : Bool :=
  match l with
  | y1 :: y2 :: y3 :: y4 :: h1 :: m1 :: m2 :: h2 :: d1 :: d2 :: _ =>
      [y1, y2, y3, y4, m1, m2, d1, d2].all Char.isDigit && h1 == '-' && h2 == '-'
  | _ => false

/-- Worker for `splitOnChar`: the first group and the remaining groups. -/
def splitAux (sep : Char) : List Char → List Char × List (List Char)
  | [] => ([], [])
  | c :: rest =>
      let r := splitAux sep rest
      if c = sep then ([], r.1 :: r.2) else (c :: r.1, r.2)

/-- The host `String.prototype.split` with a one-character separator:
never returns an empty list; splitting the empty string yields one empty
group. -/
def splitOnChar (sep : Char) (l : List Char) : List (List Char) :=
  (splitAux sep l).1 :: (splitAux sep l).2

/-- `validateIsoDateParts`: re-derive year/month/day from the string
(`split('T')[0]`, then `split('-')`, then `parseInt`) and compare them to
the parsed date's UTC calendar fields; a `parseInt` NaN makes the strict
inequation against the (always numeric) UTC field true, hence a failure. -/
def validateIsoDateParts (dateString : List Char) (dateObj : Int) : ValidationResult :=
  let datePart := dateString.takeWhile (fun c => c != 'T') -- dateString.split('T')[0]
  if datePart.isEmpty then .invalid "Invalid date format" -- !datePart
  else
    match splitOnChar '-' datePart with
    | p0 :: p1 :: p2 :: _ =>
        if p0.isEmpty || p1.isEmpty || p2.isEmpty then .invalid "Invalid date format"
        else
          match jsParseInt p0, jsParseInt p1, jsParseInt p2 with
          | some year, some month, some day =>
              if getUTCFullYear dateObj ≠ year ∨ getUTCMonth dateObj + 1 ≠ month ∨
                  getUTCDate dateObj ≠ day then
                .invalid "Invalid date format"
              else .valid
          | _, _, _ => .invalid "Invalid date format" -- a NaN part never equals a UTC field
    | _ => .invalid "Invalid date format" -- parts.length < 3

/-- Argument type of `validateDate`: `Date | string`. -/
inductive DateOrString where
  | dateObject (t : Option Int)
  | strVal (s : String)
deriving Repr

/-- `validateDate`: reject empty/blank strings, parse strings through the
host Date constructor, reject an Invalid Date, and for ISO-shaped strings
additionally require the re-derived date parts to agree with the parsed
date's UTC fields. -/
def validateDate (value : DateOrString) : ValidationResult :=
  -- `!value || (typeof value === 'string' && value.trim() === '')`:
  -- a Date object is always truthy; the only falsy string is ''.
  match value with
  | .dateObject t =>
      match t with
      | none => .invalid "Invalid date format" -- isNaN(dateObj.getTime())
      | some _ => .valid -- a Date is not a string: the ISO re-check is skipped
  | .strVal s =>
      if s = "" ∨ jsTrim s = "" then .invalid "Invalid date format"
      else
        match jsParseDateOnly s with
        | none => .invalid "Invalid date format" -- isNaN(dateObj.getTime())
        | some dateObj =>
            if isoFormatTest s.data then validateIsoDateParts s.data dateObj
            else .valid

/-! ## Validation dispatcher (packages/core/src/validation/validate-field.ts) -/

/-- `checkRequired`: the required/optional policy applied to absent
(null/undefined) values; `none` means "continue with type-specific
validation". -/
def checkRequired (field : FormField) (value : JsValue) : Option ValidationResult :=
  let isNull := match value with
    | JsValue.null => true
    | JsValue.undefined => true
    | _ => false
  if field.required && isNull then some (.invalid "Field is required")
  else if !field.required && isNull then some .valid
  else none

/-- `validateNumberField`: numeric coercion (`typeof value === 'number' ?
value : Number(value)`), then `validateNumber` with the field's optional
bounds (`validation || {}`). -/
def validateNumberField (value : JsValue) (validation : Option ValidationRule) :
    ValidationResult :=
  let numValue := match value with
    | .num q => q
    | v => jsToNumber v
  let rules := validation.getD {}
  validateNumber numValue rules.min rules.max

/-- `validateDateField`: only Date objects and strings reach `validateDate`;
every other shape is rejected. -/
def validateDateField (value : JsValue) : ValidationResult :=
  match value with
  | .date t => validateDate (.dateObject t)
  | .str s => validateDate (.strVal s)
  | _ => .invalid "Invalid date format"

/-- `validateEnumField`: stringify and check against `validation?.options || []`. -/
def validateEnumField (value : JsValue) (validation : Option ValidationRule) :
    ValidationResult :=
  let strValue := jsToString value
  let options := (validation.bind (fun r => r.options)).getD []
  validateEnum strValue options

/-- `validateField`: the required/optional policy, then exhaustive dispatch
on the field's kind. -/
def validateField (field : FormField) (value : JsValue) : ValidationResult :=
  match checkRequired field value with
  | some r => r
  | none =>
      match field.type with
      | .EMAIL => validateEmail (jsToString value)
      | .PHONE => validatePhone (jsToString value)
      | .NUMBER => validateNumberField value field.validation
      | .DATE => validateDateField value
      | .ENUM => validateEnumField value field.validation
      | .TEXT => .valid
      | .LONG_TEXT => .valid

/-! ## Orchestrator (packages/core/src/orchestrator) -/

/-- Message roles of the LLM client interface. -/
inductive LlmRole where
  | system | user | assistant
deriving DecidableEq, Repr

/-- `interface LlmMessage`. -/
structure LlmMessage where
  role : LlmRole
  content : String
deriving Repr

/-- The model client's reply: its text together with the outcome of the
host `JSON.parse` on that text (`none` models a thrown SyntaxError).
`JSON.parse` is a host primitive, so a reply is modelled as the pair. -/
structure RawReply where
  content : String
  parsed : Option JsValue

/-- A deterministic model client (`LlmClient.complete`), already composed
with the host `JSON.parse` of the reply content. -/
abbrev LlmClient := List LlmMessage → RawReply

/-- `class ClientError` (caller-fault error): message, HTTP status code,
machine-readable code, and contextual data. -/
structure ClientError where
  message : String
  statusCode : Nat
  errorCode : String
  context : List (String × JsValue)

/-- What an orchestrator call can throw: a categorized `ClientError`, or an
uncategorized host runtime `TypeError` (e.g. `Object.keys(null)`). -/
inductive OrchError where
  | client (e : ClientError)
  | typeError (msg : String)

/-- `interface OrchestratorResult`.  `botResponse` and `extractedFields`
are typed `string` and `Record<string, FieldValue>` in the source but
arrive through an unchecked cast from the parsed reply, so they are kept
as runtime values. -/
structure OrchestratorResult where
  botResponse : JsValue
  extractedFields : JsValue
  isComplete : Bool
  nextField : Option String

/-- JavaScript truthiness. -/
def jsTruthy : JsValue → Bool
  | .null => false
  | .undefined => false
  | .bool b => b
  | .num none => false -- NaN is falsy
  | .num (some q) => decide (q ≠ 0)
  | .str s => decide (s ≠ "")
  | .date _ => true
  | .arr _ => true
  | .obj _ => true

/-- The JavaScript `typeof` operator. -/
def jsTypeof : JsValue → String
  | .null => "object"
  | .undefined => "undefined"
  | .bool _ => "boolean"
  | .num _ => "number"
  | .str _ => "string"
  | .date _ => "object"
  | .arr _ => "object"
  | .obj _ => "object"

/-- The JavaScript `in` operator (key presence; for arrays and strings the
own keys are the element indices).  On primitives `in` throws, but every
use here sits behind a `typeof === 'object'` guard. -/
def jsHasKey (k : String) : JsValue → Bool
  | .obj kvs => kvs.any (fun kv => kv.1 == k)
  | .arr xs => ((List.range xs.length).map toString).contains k
  | _ => false

/-- JavaScript property read `v[k]`; an absent key reads as `undefined`.
(Objects produced by `JSON.parse` have unique keys, so first-match lookup
is exact.) -/
def jsGetKey (k : String) : JsValue → JsValue
  | .obj kvs => ((kvs.find? (fun kv => kv.1 == k)).map (fun kv => kv.2)).getD .undefined
  | _ => .undefined

/-- The host `Object.keys`: throws a `TypeError` on `null`/`undefined`;
own enumerable keys otherwise (indices for arrays and strings, none for
other primitives). -/
def jsObjectKeys : JsValue → Except String (List String)
  | .null => .error "TypeError: Cannot convert undefined or null to object"
  | .undefined => .error "TypeError: Cannot convert undefined or null to object"
  | .obj kvs => .ok (kvs.map (fun kv => kv.1))
  | .arr xs => .ok ((List.range xs.length).map toString)
  | .str s => .ok ((List.range s.length).map toString)
  | _ => .ok []

/-- The host `Object.entries`, with the same throwing behavior as
`Object.keys`. -/
def jsObjectEntries : JsValue → Except String (List (String × JsValue))
  | .null => .error "TypeError: Cannot convert undefined or null to object"
  | .undefined => .error "TypeError: Cannot convert undefined or null to object"
  | .obj kvs => .ok kvs
  | .arr xs => .ok (xs.enum.map (fun iv => (toString iv.1, iv.2)))
  | .str s => .ok (s.data.enum.map (fun ic => (toString ic.1, JsValue.str (String.mk [ic.2]))))
  | _ => .ok []

/-- `Object.keys` read totally: used only where a preceding
`Object.keys`/`Object.entries` on the same value already succeeded. -/
def recordKeys (v : JsValue) : List String :=
  match jsObjectKeys v with
  | .ok ks => ks
  | .error _ => []

/-- The string value of a `FieldType` enum member (TS string enum). -/
def fieldTypeToString : FieldType → String
  | .TEXT => "TEXT"
  | .EMAIL => "EMAIL"
  | .PHONE => "PHONE"
  | .NUMBER => "NUMBER"
  | .DATE => "DATE"
  | .ENUM => "ENUM"
  | .LONG_TEXT => "LONG_TEXT"

/-- The comparator `(a, b) => a.order - b.order` of `determineNextField`,
as the ordering relation it induces. -/
def byOrder (a b : FormField) : Prop := a.order ≤ b.order

instance : DecidableRel byOrder := fun a b => Int.decLe a.order b.order

instance : IsTotal FormField byOrder := ⟨fun a b => Int.le_total a.order b.order⟩

instance : IsTrans FormField byOrder := ⟨fun _ _ _ => Int.le_trans⟩

/-- `determineNextField`: the first required field, in ascending `order`
(the host sort is stable, as is insertion sort), whose id is not among the
session's collected field ids. -/
def determineNextField (form : FormDefinition) (session : Session) : Option String :=
  let collectedFieldIds := session.fields.map (fun f => f.fieldId)
  let sortedFields := List.insertionSort byOrder form.fields
  (sortedFields.find? (fun field => field.required && !collectedFieldIds.contains field.id)).map
    (fun field => field.name)

/-- `buildSystemPrompt`: the instruction block sent as the first message. -/
def buildSystemPrompt (form : FormDefinition) (session : Session) : String :=
  let formInfo := "Form: " ++ form.name ++
    (match form.description with
     | some d => "\nDescription: " ++ d
     | none => "")
  let fieldsInfo := String.intercalate "\n" (form.fields.map (fun field =>
    "- " ++ field.label ++ " (" ++ field.name ++ ", " ++ fieldTypeToString field.type ++ ")" ++
      (if field.required then " [REQUIRED]" else " [OPTIONAL]") ++
      (match field.description with
       | some d => ": " ++ d
       | none => "")))
  let collectedInfo :=
    if session.fields.length > 0 then
      "\n\nAlready Collected:\n" ++ String.intercalate "\n" (session.fields.map (fun sf =>
        "- " ++ sf.fieldId ++ ": " ++
          (match sf.value with
           | .null => "null"
           | v => jsToString v)))
    else ""
  "You are a conversational form assistant collecting information for the following form:\n\n" ++
    formInfo ++ "\n\nFields to collect:\n" ++ fieldsInfo ++ collectedInfo ++
    "\n\nYour task:\n1. Extract any field values mentioned in the user's message\n" ++
    "2. Respond naturally and ask for the next missing required field\n" ++
    "3. Return your response in JSON format:\n\n\x7b\n" ++
    "  \"botResponse\": \"Your natural language response to the user\",\n" ++
    "  \"extractedFields\": \x7b\n    \"fieldName\": \"extractedValue\"\n  \x7d\n\x7d\n\n" ++
    "Important:\n- Only extract fields that are explicitly mentioned in the form definition\n" ++
    "- Use exact field names from the form definition\n" ++
    "- If no new fields can be extracted, return empty extractedFields object\n"

/-- `buildConversationHistory` (prompt-builder): replay the session's turns
in order, tagged with their roles. -/
def buildConversationHistory (session : Session) : List LlmMessage :=
  session.turns.map (fun turn =>
    { role := if turn.role = TurnRole.USER then LlmRole.user else LlmRole.assistant,
      content := turn.content })

/-- `parseExtractedFields`: parse failure, shape check, unknown-field check;
on success the reply text and extracted-values mapping pass through
unchanged.  (The `parseError` context string is host-generated.) -/
def parseExtractedFields (llmResponse : RawReply) (form : FormDefinition) :
    Except OrchError (JsValue × JsValue) :=
  match llmResponse.parsed with
  | none =>
      .error (.client
        { message := "LLM returned invalid JSON", statusCode := 400,
          errorCode := "INVALID_LLM_RESPONSE",
          context := [("response", .str llmResponse.content),
                      ("parseError", .str "SyntaxError")] })
  | some parsed =>
      -- `!parsed || typeof parsed !== 'object' || !('botResponse' in parsed) ||
      --  !('extractedFields' in parsed)`
      if !(jsTruthy parsed && jsTypeof parsed == "object" &&
           jsHasKey "botResponse" parsed && jsHasKey "extractedFields" parsed) then
        .error (.client
          { message := "LLM response missing required fields (botResponse, extractedFields)",
            statusCode := 400, errorCode := "INVALID_LLM_RESPONSE",
            context := [("response", .str llmResponse.content)] })
      else
        let extractedFields := jsGetKey "extractedFields" parsed
        match jsObjectKeys extractedFields with
        | .error msg => .error (.typeError msg)
        | .ok keys =>
            let validFieldNames := form.fields.map (fun f => f.name)
            match keys.find? (fun k => !validFieldNames.contains k) with
            | some fieldName =>
                .error (.client
                  { message := "Field not in form definition", statusCode := 400,
                    errorCode := "UNKNOWN_FIELD",
                    context := [("fieldName", .str fieldName), ("formId", .str form.id)] })
            | none => .ok (jsGetKey "botResponse" parsed, extractedFields)

/-- `isFormComplete`: every required field's id must be in the union of the
session's collected ids and the ids resolved from the extracted keys. -/
def isFormComplete (form : FormDefinition) (session : Session)
    (extractedFields : JsValue) : Bool :=
  let existingFieldIds := session.fields.map (fun f => f.fieldId)
  let newFieldIds := (recordKeys extractedFields).filterMap
    (fun name => (form.fields.find? (fun f => f.name == name)).map (fun f => f.id))
  let allCollectedFieldIds := existingFieldIds ++ newFieldIds
  (form.fields.filter (fun f => f.required)).all
    (fun f => allCollectedFieldIds.contains f.id)

/-- The `fieldMap` lookup of `runLlmStep`: a `Map` built from
`[f.name, f]` pairs keeps the last entry for a repeated key. -/
def fieldMapGet (form : FormDefinition) (name : String) : Option FormField :=
  form.fields.reverse.find? (fun f => f.name == name)

/-- The validation loop of `runLlmStep`: the first failing entry produces a
categorized `VALIDATION_ERROR`; a missing field definition would make the
non-null-asserted `fieldMap.get(fieldName)!` read throw (unreachable after
`parseExtractedFields`). -/
def validateEntries (form : FormDefinition) : List (String × JsValue) → Option OrchError
  | [] => none
  | (fieldName, fieldValue) :: rest =>
      match fieldMapGet form fieldName with
      | none => some (.typeError "TypeError: Cannot read properties of undefined")
      | some fieldDef =>
          match validateField fieldDef fieldValue with
          | .invalid e =>
              some (.client
                { message := e, statusCode := 400, errorCode := "VALIDATION_ERROR",
                  context := [("fieldName", .str fieldName), ("value", fieldValue),
                              ("formId", .str form.id)] })
          | .valid => validateEntries form rest

/-- The hypothetical-session fields of `runLlmStep`: each extracted entry
becomes a collected field via the non-null-asserted
`form.fields.find(...)!.id` (a miss would throw).  `collectedAt` is
`new Date()` — host wall clock, never observed downstream — modelled as 0. -/
def buildHypFields (form : FormDefinition) : List (String × JsValue) →
    Except OrchError (List SessionField)
  | [] => .ok []
  | (name, value) :: rest =>
      match form.fields.find? (fun f => f.name == name) with
      | none => .error (.typeError "TypeError: Cannot read properties of undefined")
      | some f =>
          (buildHypFields form rest).map
            (fun fs => { fieldId := f.id, value := value, collectedAt := 0 } :: fs)

/-- The message sequence of `runLlmStep`: instruction block, replayed
history, then the new user message. -/
def llmStepMessages (form : FormDefinition) (session : Session)
    (userMessage : String) : List LlmMessage :=
  { role := LlmRole.system, content := buildSystemPrompt form session } ::
    buildConversationHistory session ++
    [{ role := LlmRole.user, content := userMessage }]

/-- `runLlmStep`: one orchestrated turn — build context, call the client,
interpret the reply, validate each extracted value, decide completion and
the next field.  A pure function of its four inputs. -/
def runLlmStep (form : FormDefinition) (session : Session) (userMessage : String)
    (llmClient : LlmClient) : Except OrchError OrchestratorResult :=
  let messages := llmStepMessages form session userMessage
  let llmResponse := llmClient messages
  match parseExtractedFields llmResponse form with
  | .error e => .error e
  | .ok (botResponse, extractedFields) =>
      match jsObjectEntries extractedFields with
      | .error msg => .error (.typeError msg)
      | .ok entries =>
          match validateEntries form entries with
          | some e => .error e
          | none =>
              let complete := isFormComplete form session extractedFields
              match buildHypFields form entries with
              | .error e => .error e
              | .ok newFields =>
                  let hypotheticalSession : Session :=
                    { session with fields := session.fields ++ newFields }
                  let nextField :=
                    if complete then none
                    else determineNextField form hypotheticalSession
                  .ok { botResponse := botResponse, extractedFields := extractedFields,
                        isComplete := complete, nextField := nextField }

/-! ## Specification-side shapes

Definitions that restate, in the spec's own vocabulary, the shapes the
validators are claimed to recognize; the theorems below compare them with
the embedded source functions. -/

/-- The spec's email shape: a nonempty run of non-whitespace non-`@`
characters, an `@`, and a domain holding a `.` with a nonempty such run on
each side. -/
def emailShape (l : List Char) : Prop :=
  ∃ a c d : List Char,
    a ≠ [] ∧ c ≠ [] ∧ d ≠ [] ∧
    (∀ x ∈ a, emailChar x = true) ∧ (∀ x ∈ c, emailChar x = true) ∧
    (∀ x ∈ d, emailChar x = true) ∧
    l = a ++ '@' :: (c ++ '.' :: d)

/-- The year/month/day the date validator re-derives from a string:
`split('T')[0]`, then `split('-')`, then `parseInt` on the first three
groups; `none` when the groups are missing, empty, or non-numeric. -/
def reDerivedYMD (l : List Char) : Option (Int × Int × Int) :=
  let datePart := l.takeWhile (fun c => c != 'T')
  if datePart.isEmpty then none
  else
    match splitOnChar '-' datePart with
    | p0 :: p1 :: p2 :: _ =>
        if p0.isEmpty || p1.isEmpty || p2.isEmpty then none
        else
          match jsParseInt p0, jsParseInt p1, jsParseInt p2 with
          | some y, some m, some d => some (y, m, d)
          | _, _, _ => none
    | _ => none

/-- The spec's agreement condition for ISO-shaped date strings: the
re-derived year/month/day equal the parsed date's UTC calendar fields. -/
def reDerivedPartsMatch (l : List Char) (t : Int) : Prop :=
  ∃ y m d : Int, reDerivedYMD l = some (y, m, d) ∧
    getUTCFullYear t = y ∧ getUTCMonth t + 1 = m ∧ getUTCDate t = d

/-- Whether an interpreter outcome is one of the categorized ones (a
success or a `ClientError`), as opposed to an uncategorized runtime
`TypeError`. -/
def isCategorizedOutcome : Except OrchError (JsValue × JsValue) → Bool
  | .ok _ => true
  | .error (.client _) => true
  | .error (.typeError _) => false

/-! ## Concrete fixtures used by witnesses and counterexamples -/

/-- A required TEXT field. -/
def fullNameField : FormField :=
  { id := "field_001", name := "fullName", label := "Full Name",
    type := .TEXT, required := true, order := 0 }

/-- A required EMAIL field. -/
def emailField : FormField :=
  { id := "field_002", name := "email", label := "Email Address",
    type := .EMAIL, required := true, order := 1 }

/-- An optional NUMBER field with bounds 18..120. -/
def ageField : FormField :=
  { id := "field_003", name := "age", label := "Age",
    type := .NUMBER, required := false,
    validation := some { min := some (some 18), max := some (some 120) },
    order := 2 }

/-- A small contact form. -/
def demoForm : FormDefinition :=
  { id := "form_demo", name := "Contact", fields := [fullNameField, emailField, ageField] }

/-- A session where the full name was already collected. -/
def demoSession : Session :=
  { id := "session_demo", formId := "form_demo",
    fields := [{ fieldId := "field_001", value := .str "John" }] }

/-- A deterministic client answering every message sequence with the same
parsed reply. -/
def clientReplying (j : JsValue) : LlmClient :=
  fun _ => { content := "demo", parsed := some j }

/-- A reply extracting nothing. -/
def emptyExtractionReply : JsValue :=
  .obj [("botResponse", .str "Hello!"), ("extractedFields", .obj [])]

/-- A reply extracting an out-of-bounds age. -/
def ageExtractionReply : JsValue :=
  .obj [("botResponse", .str "Noted."), ("extractedFields", .obj [("age", .num (some 17))])]

/-- A parseable reply whose `extractedFields` member is JSON `null`. -/
def nullExtractedReply : RawReply :=
  { content := "\x7b\"botResponse\": \"hi\", \"extractedFields\": null\x7d",
    parsed := some (.obj [("botResponse", .str "hi"), ("extractedFields", JsValue.null)]) }

/-! ## Helper lemmas -/

/-- The validation loop stops at the first failing entry and reports that
entry's validator reason with its context. -/
theorem validateEntries_append (form : FormDefinition) (pre post : List (String × JsValue))
    (n : String) (v : JsValue) (fd : FormField) (msg : String)
    (hpre : ∀ p ∈ pre, ∃ fd', fieldMapGet form p.1 = some fd' ∧
      validateField fd' p.2 = .valid)
    (hfd : fieldMapGet form n = some fd)
    (hfail : validateField fd v = .invalid msg) :
    validateEntries form (pre ++ (n, v) :: post) =
      some (.client
        { message := msg, statusCode := 400, errorCode := "VALIDATION_ERROR",
          context := [("fieldName", .str n), ("value", v), ("formId", .str form.id)] }) := by
  induction pre with
  | nil => simp [validateEntries, hfd, hfail]
  | cons p ps ih =>
      obtain ⟨fd', hm, hv⟩ := hpre p (List.mem_cons_self p ps)
      rcases p with ⟨pn, pv⟩
      simp only [List.cons_append, validateEntries, hm, hv]
      exact ih (fun q hq => hpre q (List.mem_cons_of_mem _ hq))

/-- Membership in the id list resolved from extracted keys (the
`newFieldIds` computation): with form-unique field names, an id is
resolved exactly when some field of the form bears it and is named by one
of the keys. -/
theorem mem_resolvedIds_iff (form : FormDefinition) (keys : List String) (i : String)
    (hnames : (form.fields.map (fun f => f.name)).Nodup) :
    i ∈ keys.filterMap
        (fun name => (form.fields.find? (fun f => f.name == name)).map (fun f => f.id)) ↔
      ∃ g ∈ form.fields, g.name ∈ keys ∧ g.id = i := by
  constructor
  · intro h
    obtain ⟨name, hk, hfm⟩ := List.mem_filterMap.mp h
    obtain ⟨g, hg, hgid⟩ := Option.map_eq_some'.mp hfm
    have hgp := List.find?_some hg
    simp only [beq_iff_eq] at hgp
    have hgm := List.mem_of_find?_eq_some hg
    exact ⟨g, hgm, by rw [hgp]; exact hk, hgid⟩
  · rintro ⟨g, hg, hkname, rfl⟩
    apply List.mem_filterMap.mpr
    refine ⟨g.name, hkname, ?_⟩
    have hsome : (form.fields.find? (fun f => f.name == g.name)).isSome :=
      List.find?_isSome.mpr ⟨g, hg, by simp⟩
    obtain ⟨g', hg'⟩ := Option.isSome_iff_exists.mp hsome
    have hp := List.find?_some hg'
    simp only [beq_iff_eq] at hp
    have hm := List.mem_of_find?_eq_some hg'
    have hgg : g' = g := List.inj_on_of_nodup_map hnames hm hg hp
    rw [hg', hgg]
    rfl

/-- `find?` on a split list whose prefix fails the predicate returns the
split point when it satisfies it. -/
theorem find?_append_first {α} (p : α → Bool) (pre post : List α) (a : α)
    (hpre : ∀ x ∈ pre, p x = false) (ha : p a = true) :
    (pre ++ a :: post).find? p = some a := by
  induction pre with
  | nil => simp [List.find?_cons, ha]
  | cons x xs ih =>
      simp only [List.cons_append, List.find?_cons, hpre x (List.mem_cons_self x xs)]
      exact ih (fun y hy => hpre y (List.mem_cons_of_mem _ hy))

/-- The first element surviving `dropWhile` fails the predicate. -/
theorem dropWhile_head_false {α} {p : α → Bool} {c : α} {cs : List α} :
    ∀ {l : List α}, l.dropWhile p = c :: cs → p c = false := by
  intro l
  induction l with
  | nil => intro h; simp at h
  | cons x t ih =>
      intro h
      rw [List.dropWhile_cons] at h
      by_cases hx : p x = true
      · rw [if_pos hx] at h
        exact ih h
      · rw [if_neg hx] at h
        injection h with h1 _
        rw [← h1]
        simpa using hx

/-- Membership in `dropLast`: the element appears with a nonempty suffix. -/
theorem mem_dropLast_iff {α} {a : α} :
    ∀ {l : List α}, a ∈ l.dropLast ↔ ∃ c d, d ≠ [] ∧ l = c ++ a :: d := by
  intro l
  induction l with
  | nil =>
      simp only [List.dropLast_nil, List.not_mem_nil, false_iff, not_exists]
      rintro c d ⟨hd, h⟩
      exact absurd (List.append_eq_nil.mp h.symm).2 (List.cons_ne_nil a d)
  | cons x t ih =>
      cases t with
      | nil =>
          simp only [List.dropLast_single, List.not_mem_nil, false_iff, not_exists]
          rintro c d ⟨hd, h⟩
          have hlen := congrArg List.length h
          have hdl : 0 < d.length := List.length_pos.mpr hd
          simp [List.length_append] at hlen
          omega
      | cons y u =>
          rw [List.dropLast_cons₂]
          constructor
          · intro h
            rcases List.mem_cons.mp h with rfl | h'
            · exact ⟨[], y :: u, List.cons_ne_nil _ _, rfl⟩
            · obtain ⟨c, d, hd, hcd⟩ := ih.mp h'
              exact ⟨x :: c, d, hd, by rw [List.cons_append, ← hcd]⟩
          · rintro ⟨c, d, hd, hcd⟩
            cases c with
            | nil =>
                injection hcd with h1 h2
                rw [h1]
                exact List.mem_cons_self _ _
            | cons c0 cs =>
                injection hcd with h1 h2
                exact List.mem_cons_of_mem _ (ih.mpr ⟨cs, d, hd, h2⟩)

/-- Membership strictly inside a list (`tail` then `dropLast`): the element
appears with a nonempty prefix and a nonempty suffix. -/
theorem mem_tail_dropLast_iff {α} {a : α} {l : List α} :
    a ∈ l.tail.dropLast ↔ ∃ c d, c ≠ [] ∧ d ≠ [] ∧ l = c ++ a :: d := by
  cases l with
  | nil =>
      simp only [List.tail_nil, List.dropLast_nil, List.not_mem_nil, false_iff, not_exists]
      rintro c d ⟨hc, hd, h⟩
      have := (List.append_eq_nil.mp h.symm).2
      exact absurd this (List.cons_ne_nil a d)
  | cons x t =>
      rw [List.tail_cons, mem_dropLast_iff]
      constructor
      · rintro ⟨c, d, hd, rfl⟩
        exact ⟨x :: c, d, List.cons_ne_nil _ _, hd, rfl⟩
      · rintro ⟨c, d, hc, hd, hcd⟩
        cases c with
        | nil => exact absurd rfl hc
        | cons c0 cs =>
            injection hcd with h1 h2
            exact ⟨cs, d, hd, h2⟩

/-- `takeWhile`/`dropWhile` split an append at the first predicate
failure. -/
theorem takeWhile_dropWhile_split {α} (p : α → Bool) (a : List α) (b : α) (r : List α)
    (ha : ∀ x ∈ a, p x = true) (hb : p b = false) :
    (a ++ b :: r).takeWhile p = a ∧ (a ++ b :: r).dropWhile p = b :: r := by
  induction a with
  | nil => simp [List.takeWhile_cons, List.dropWhile_cons, hb]
  | cons x xs ih =>
      have hx := ha x (List.mem_cons_self x xs)
      obtain ⟨h1, h2⟩ := ih (fun y hy => ha y (List.mem_cons_of_mem _ hy))
      simp [List.takeWhile_cons, List.dropWhile_cons, hx, h1, h2]

/-- A decimal digit is not a hyphen. -/
theorem digit_not_dash {c : Char} (h : c.isDigit = true) : ¬(c = '-') := by
  rintro rfl
  simp at h

/-- A decimal digit is not the letter T. -/
theorem digit_bne_T {c : Char} (h : c.isDigit = true) : (c != 'T') = true := by
  simp only [bne_iff_ne, ne_eq]
  rintro rfl
  simp at h

/-- A decimal digit is not JavaScript whitespace. -/
theorem digit_not_ws {c : Char} (h : c.isDigit = true) : isJsWhitespace c = false := by
  unfold Char.isDigit at h
  simp only [decide_eq_true_eq, Bool.and_eq_true, ge_iff_le] at h
  obtain ⟨h1, h2⟩ := h
  have hn1 : (48 : UInt32).toNat ≤ c.val.toNat := h1
  have hn2 : c.val.toNat ≤ (57 : UInt32).toNat := h2
  have hn1' : 48 ≤ c.val.toNat := hn1
  have hn2' : c.val.toNat ≤ 57 := hn2
  unfold isJsWhitespace
  simp only [Char.toNat, Bool.or_eq_false_iff, beq_eq_false_iff_ne, ne_eq,
    Bool.and_eq_false_iff, decide_eq_false_iff_not, not_le]
  omega

/-- Trimming a string whose first character is not whitespace leaves it
nonempty. -/
theorem jsTrimList_cons_ne_nil {c : Char} (h : isJsWhitespace c = false) (l : List Char) :
    jsTrimList (c :: l) ≠ [] := by
  unfold jsTrimList
  rw [List.dropWhile_cons, if_neg (by simp [h])]
  intro hcontra
  rw [List.reverse_eq_nil_iff] at hcontra
  have := List.dropWhile_eq_nil_iff.mp hcontra c (by simp)
  rw [h] at this
  cases this

/-- The embedded `EMAIL_REGEX` test recognizes exactly the spec's
local-part@domain.tld shape. -/
theorem emailRegexTest_iff (l : List Char) : emailRegexTest l = true ↔ emailShape l := by
  constructor
  · intro h
    unfold emailRegexTest at h
    cases hdw : l.dropWhile (fun c => c != '@') with
    | nil => rw [hdw] at h; simp at h
    | cons c0 dom =>
        have hc0 := dropWhile_head_false hdw
        have hc0' : c0 = '@' := by simpa using hc0
        subst hc0'
        rw [hdw] at h
        simp only [Bool.and_eq_true, Bool.not_eq_true'] at h
        obtain ⟨⟨⟨hne, hloc⟩, hdom⟩, hdot⟩ := h
        have hl : l = l.takeWhile (fun c => c != '@') ++ '@' :: dom := by
          conv_lhs => rw [← List.takeWhile_append_dropWhile (fun c => c != '@') l]
          rw [hdw]
        have hdot' : '.' ∈ dom.tail.dropLast := by
          rw [← List.elem_iff]
          exact hdot
        obtain ⟨c, d, hc, hd, hdomeq⟩ := mem_tail_dropLast_iff.mp hdot'
        refine ⟨l.takeWhile (fun ch => ch != '@'), c, d, ?_, hc, hd, ?_, ?_, ?_, ?_⟩
        · intro hcontra
          rw [hcontra] at hne
          simp at hne
        · exact fun x hx => (List.all_eq_true.mp hloc) x hx
        · intro x hx
          exact (List.all_eq_true.mp hdom) x (hdomeq ▸ List.mem_append_left _ hx)
        · intro x hx
          apply (List.all_eq_true.mp hdom) x
          rw [hdomeq]
          exact List.mem_append_right _ (List.mem_cons_of_mem _ hx)
        · rw [hdomeq] at hl
          exact hl
  · rintro ⟨a, c, d, ha, hc, hd, hca, hcc, hcd, rfl⟩
    unfold emailRegexTest
    have hpa : ∀ x ∈ a, ((fun ch => ch != '@') x) = true := by
      intro x hx
      have := hca x hx
      unfold emailChar at this
      simp only [Bool.and_eq_true] at this
      exact this.2
    have hat : ((fun ch => ch != '@') '@') = false := by simp
    obtain ⟨htw, hdw⟩ := takeWhile_dropWhile_split _ a '@' _ hpa hat
    rw [hdw, htw]
    simp only [Bool.and_eq_true, Bool.not_eq_true']
    refine ⟨⟨⟨?_, ?_⟩, ?_⟩, ?_⟩
    · cases a with
      | nil => exact absurd rfl ha
      | cons _ _ => rfl
    · exact List.all_eq_true.mpr hca
    · rw [List.all_eq_true]
      intro x hx
      rcases List.mem_append.mp hx with hx' | hx'
      · exact hcc x hx'
      · rcases List.mem_cons.mp hx' with rfl | hx''
        · decide
        · exact hcd x hx''
    · rw [List.elem_iff]
      exact mem_tail_dropLast_iff.mpr ⟨c, d, hc, hd, rfl⟩

/-- `contains` is false exactly for non-members. -/
theorem contains_eq_false_iff (l : List String) (a : String) :
    l.contains a = false ↔ a ∉ l := by
  constructor
  · intro h hmem
    have h' : l.elem a = false := h
    rw [List.elem_iff.mpr hmem] at h'
    cases h'
  · intro h
    show l.elem a = false
    rw [Bool.eq_false_iff]
    exact fun hc => h (List.elem_iff.mp hc)

/-- On a sorted list, `find?` returns a satisfying element that is minimal
among all satisfying elements. -/
theorem find?_sorted_min {α} {r : α → α → Prop} (hrefl : ∀ a, r a a) {p : α → Bool} :
    ∀ {l : List α} {a : α}, l.Sorted r → l.find? p = some a →
      p a = true ∧ a ∈ l ∧ ∀ b ∈ l, p b = true → r a b := by
  intro l
  induction l with
  | nil => intro a _ h; simp at h
  | cons x t ih =>
      intro a hs hf
      rw [List.sorted_cons] at hs
      obtain ⟨hxall, hst⟩ := hs
      by_cases hx : p x = true
      · simp only [List.find?_cons, hx, if_true] at hf
        injection hf with hf
        subst hf
        refine ⟨hx, List.mem_cons_self _ _, ?_⟩
        intro b hb _
        rcases List.mem_cons.mp hb with rfl | hb'
        · exact hrefl _
        · exact hxall b hb'
      · have hx' : p x = false := by simpa using hx
        simp only [List.find?_cons, hx', Bool.false_eq_true, if_false] at hf
        obtain ⟨hpa, hma, hmin⟩ := ih hst hf
        refine ⟨hpa, List.mem_cons_of_mem _ hma, ?_⟩
        intro b hb hpb
        rcases List.mem_cons.mp hb with rfl | hb'
        · exact absurd hpb hx
        · exact hmin b hb' hpb

/-- The field ids of the hypothetical-session entries are exactly the ids
resolved from the entry names. -/
theorem buildHypFields_ids (form : FormDefinition) :
    ∀ (es : List (String × JsValue)) (nf : List SessionField),
      buildHypFields form es = .ok nf →
      nf.map (fun sf => sf.fieldId) =
        es.filterMap
          (fun e => (form.fields.find? (fun f => f.name == e.1)).map (fun f => f.id)) := by
  intro es
  induction es with
  | nil =>
      intro nf h
      injection h with h
      subst h
      rfl
  | cons e rest ih =>
      intro nf h
      obtain ⟨en, ev⟩ := e
      unfold buildHypFields at h
      cases hf : form.fields.find? (fun f => f.name == en) with
      | none =>
          simp only [hf] at h
          exact Except.noConfusion h
      | some f =>
          simp only [hf] at h
          cases hb : buildHypFields form rest with
          | error e' => rw [hb] at h; simp [Except.map] at h
          | ok fs =>
              rw [hb] at h
              simp only [Except.map] at h
              injection h with h
              subst h
              simp only [List.map_cons, List.filterMap_cons, hf, Option.map_some']
              rw [ih fs hb]

/-- The first components of `Object.entries` are `Object.keys`. -/
theorem jsObjectEntries_fst (ef : JsValue) (entries : List (String × JsValue))
    (h : jsObjectEntries ef = .ok entries) :
    entries.map (fun e => e.1) = recordKeys ef := by
  cases ef with
  | null => simp [jsObjectEntries] at h
  | undefined => simp [jsObjectEntries] at h
  | obj kvs =>
      simp only [jsObjectEntries] at h
      injection h with h
      subst h
      rfl
  | arr xs =>
      simp only [jsObjectEntries] at h
      injection h with h
      subst h
      simp only [recordKeys, jsObjectKeys, List.map_map]
      rw [← List.enum_map_fst xs, List.map_map]
      rfl
  | str s =>
      simp only [jsObjectEntries] at h
      injection h with h
      subst h
      simp only [recordKeys, jsObjectKeys, List.map_map]
      rw [show s.length = s.data.length from rfl, ← List.enum_map_fst s.data, List.map_map]
      rfl
  | bool b =>
      simp only [jsObjectEntries] at h
      injection h with h
      subst h
      rfl
  | num q =>
      simp only [jsObjectEntries] at h
      injection h with h
      subst h
      rfl
  | date t =>
      simp only [jsObjectEntries] at h
      injection h with h
      subst h
      rfl

/-- On a ten-character digits-and-hyphens date list, the parts check of
the date validator succeeds exactly when the re-derived year/month/day
agree with the parsed date's UTC fields. -/
theorem validateIsoDateParts_iff (y1 y2 y3 y4 m1 m2 d1 d2 : Char) (t : Int)
    (h1 : y1.isDigit = true) (h2 : y2.isDigit = true) (h3 : y3.isDigit = true)
    (h4 : y4.isDigit = true) (h5 : m1.isDigit = true) (h6 : m2.isDigit = true)
    (h7 : d1.isDigit = true) (h8 : d2.isDigit = true) :
    validateIsoDateParts [y1, y2, y3, y4, '-', m1, m2, '-', d1, d2] t = .valid ↔
      reDerivedPartsMatch [y1, y2, y3, y4, '-', m1, m2, '-', d1, d2] t := by
  have e1 := digit_bne_T h1
  have e2 := digit_bne_T h2
  have e3 := digit_bne_T h3
  have e4 := digit_bne_T h4
  have e5 := digit_bne_T h5
  have e6 := digit_bne_T h6
  have e7 := digit_bne_T h7
  have e8 := digit_bne_T h8
  have n1 := digit_not_dash h1
  have n2 := digit_not_dash h2
  have n3 := digit_not_dash h3
  have n4 := digit_not_dash h4
  have n5 := digit_not_dash h5
  have n6 := digit_not_dash h6
  have n7 := digit_not_dash h7
  have n8 := digit_not_dash h8
  have htake : List.takeWhile (fun c => c != 'T') [y1, y2, y3, y4, '-', m1, m2, '-', d1, d2] =
      [y1, y2, y3, y4, '-', m1, m2, '-', d1, d2] := by
    simp [List.takeWhile_cons, e1, e2, e3, e4, e5, e6, e7, e8]
  have hsplit : splitAux '-' [y1, y2, y3, y4, '-', m1, m2, '-', d1, d2] =
      ([y1, y2, y3, y4], [[m1, m2], [d1, d2]]) := by
    simp [splitAux, n1, n2, n3, n4, n5, n6, n7, n8]
  unfold validateIsoDateParts reDerivedPartsMatch reDerivedYMD splitOnChar
  simp only [htake]
  simp only [hsplit]
  simp only [List.isEmpty_cons, List.isEmpty_nil, Bool.false_eq_true, if_false,
    Bool.or_self, Bool.false_or, Bool.or_false]
  rcases hy : jsParseInt [y1, y2, y3, y4] with _ | y
  · simp
  · rcases hm : jsParseInt [m1, m2] with _ | m
    · simp
    · rcases hd : jsParseInt [d1, d2] with _ | d
      · simp
      · dsimp only
        by_cases hne : getUTCFullYear t ≠ y ∨ getUTCMonth t + 1 ≠ m ∨ getUTCDate t ≠ d
        · rw [if_pos hne]
          constructor
          · intro h
            exact absurd h (by simp)
          · rintro ⟨y', m', d', heq, hy', hm', hd'⟩
            obtain ⟨rfl, rfl, rfl⟩ : y = y' ∧ m = m' ∧ d = d' := by
              injection heq with heq'
              injection heq' with a b
              injection b with b c
              exact ⟨a, b, c⟩
            rcases hne with hcon | hcon | hcon
            · exact absurd hy' hcon
            · exact absurd hm' hcon
            · exact absurd hd' hcon
        · rw [if_neg hne]
          push_neg at hne
          exact ⟨fun _ => ⟨y, m, d, rfl, hne.1, hne.2.1, hne.2.2⟩, fun _ => rfl⟩

/-! ## Claim theorems -/

/-- C1: the completion flag is true iff every required field's id lies in
the union of the session's collected ids and the ids of the fields named
by the extracted-values map; a form with no fields or only optional fields
is complete regardless of session and extraction.  (Field names are unique
within a form — a data-model invariant.) -/
theorem isFormComplete_spec (form : FormDefinition) (session : Session)
    (kvs : List (String × JsValue))
    (hnames : (form.fields.map (fun f => f.name)).Nodup) :
    (isFormComplete form session (.obj kvs) = true ↔
      ∀ f ∈ form.fields, f.required = true →
        f.id ∈ session.fields.map (fun sf => sf.fieldId) ∨
        ∃ g ∈ form.fields, g.name ∈ kvs.map (fun kv => kv.1) ∧ g.id = f.id) ∧
    ((∀ f ∈ form.fields, f.required = false) →
      isFormComplete form session (.obj kvs) = true) := by
  have hunion : ∀ i : String,
      i ∈ session.fields.map (fun sf => sf.fieldId) ++
        (kvs.map (fun kv => kv.1)).filterMap
          (fun name => (form.fields.find? (fun f => f.name == name)).map (fun f => f.id)) ↔
      i ∈ session.fields.map (fun sf => sf.fieldId) ∨
        ∃ g ∈ form.fields, g.name ∈ kvs.map (fun kv => kv.1) ∧ g.id = i := by
    intro i
    rw [List.mem_append, mem_resolvedIds_iff form _ i hnames]
  constructor
  · unfold isFormComplete recordKeys jsObjectKeys
    simp only [List.all_eq_true, List.mem_filter]
    constructor
    · intro h f hf hreq
      have := h f ⟨hf, hreq⟩
      rw [List.elem_iff] at this
      exact (hunion f.id).mp this
    · intro h f hf
      rw [List.elem_iff]
      exact (hunion f.id).mpr (h f hf.1 hf.2)
  · intro hopt
    unfold isFormComplete
    have hfilter : form.fields.filter (fun f => f.required) = [] := by
      rw [List.filter_eq_nil_iff]
      intro f hf
      simp [hopt f hf]
    rw [hfilter]
    rfl

/-- Witness for C1: extracting the email completes nothing else, but the
completion predicate evaluates and the equivalence applies at a concrete
form, session and extraction map. -/
theorem isFormComplete_spec_witness :
    isFormComplete demoForm demoSession (.obj [("email", .str "a@b.c")]) = true :=
  ((isFormComplete_spec demoForm demoSession [("email", .str "a@b.c")] (by decide)).1).mpr
    (by decide)

/-- C5: for every field, if it is required then validating an absent value
(null or undefined) fails with exactly "Field is required"; if it is
optional then validating an absent value succeeds outright, so no
type-specific validator's failure reason can be produced. -/
theorem required_policy_spec (field : FormField) :
    (field.required = true →
      validateField field .null = .invalid "Field is required" ∧
      validateField field .undefined = .invalid "Field is required") ∧
    (field.required = false →
      validateField field .null = .valid ∧
      validateField field .undefined = .valid) := by
  refine ⟨fun h => ⟨?_, ?_⟩, fun h => ⟨?_, ?_⟩⟩ <;>
    simp [validateField, checkRequired, h]

/-- Witness for C5 at a concrete required field. -/
theorem required_policy_spec_witness :
    validateField fullNameField .null = .invalid "Field is required" :=
  ((required_policy_spec fullNameField).1 rfl).1

/-- C6: for ISO-shaped strings the host parses, the date validator
succeeds exactly when the year/month/day re-derived from the string equal
the parsed date's UTC calendar fields; "2024-01-15" succeeds, while
"2024-02-30" (which day-overflow parsing rolls into March) and
"not-a-date" fail with "Invalid date format". -/
theorem date_validator_spec :
    (∀ (s : String) (t : Int), jsParseDateOnly s = some t →
      (validateDate (.strVal s) = .valid ↔ reDerivedPartsMatch s.data t)) ∧
    validateDate (.strVal "2024-01-15") = .valid ∧
    validateDate (.strVal "2024-02-30") = .invalid "Invalid date format" ∧
    validateDate (.strVal "not-a-date") = .invalid "Invalid date format" := by
  refine ⟨?_, by decide, by decide, by decide⟩
  intro s t hparse
  obtain ⟨l⟩ := s
  have hp0 := hparse
  unfold jsParseDateOnly at hparse
  dsimp only at hparse
  split at hparse
  case h_2 => exact absurd hparse (by simp)
  case h_1 =>
    rename_i y1 y2 y3 y4 h1c m1 m2 h2c d1 d2
    split at hparse
    case isFalse => exact absurd hparse (by simp)
    case isTrue hcond =>
      simp only [List.all_cons, List.all_nil, Bool.and_eq_true, beq_iff_eq,
        Bool.and_true] at hcond
      obtain ⟨⟨⟨hd1, hd2, hd3, hd4, hd5, hd6, hd7, hd8⟩, hh1⟩, hh2⟩ := hcond
      subst hh1
      subst hh2
      have hne1 : ¬(String.mk [y1, y2, y3, y4, '-', m1, m2, '-', d1, d2] = "") := by
        intro h
        have := congrArg String.data h
        simp at this
      have hne2 : ¬(jsTrim (String.mk [y1, y2, y3, y4, '-', m1, m2, '-', d1, d2]) = "") := by
        intro h
        have := congrArg String.data h
        exact jsTrimList_cons_ne_nil (digit_not_ws hd1) _ this
      unfold validateDate
      dsimp only
      rw [if_neg (by rintro (h | h); exact hne1 h; exact hne2 h)]
      rw [hp0]
      dsimp only
      have hiso : isoFormatTest [y1, y2, y3, y4, '-', m1, m2, '-', d1, d2] = true := by
        unfold isoFormatTest
        simp [hd1, hd2, hd3, hd4, hd5, hd6, hd7, hd8]
      rw [if_pos hiso]
      exact validateIsoDateParts_iff y1 y2 y3 y4 m1 m2 d1 d2 t
        hd1 hd2 hd3 hd4 hd5 hd6 hd7 hd8

/-- Witness for C6: the universal equivalence applied at "2024-01-15"
(epoch day 19737), whose re-derived parts agree with the UTC fields. -/
theorem date_validator_spec_witness :
    validateDate (.strVal "2024-01-15") = .valid ↔
      reDerivedPartsMatch ("2024-01-15").data 19737 :=
  date_validator_spec.1 "2024-01-15" 19737 (by decide)

/-- C7: the email validator succeeds exactly when the trimmed value is
nonempty and the value matches the local-part@domain.tld shape (a
nonempty non-whitespace non-at run, an at sign, and a domain with a dot
strictly inside); the listed malformed examples all fail with exactly
"Invalid email format". -/
theorem email_validator_spec :
    (∀ s : String, validateEmail s = .valid ↔ (jsTrim s ≠ "" ∧ emailShape s.data)) ∧
    validateEmail "userexample.com" = .invalid "Invalid email format" ∧
    validateEmail "user@" = .invalid "Invalid email format" ∧
    validateEmail "@example.com" = .invalid "Invalid email format" ∧
    validateEmail "" = .invalid "Invalid email format" := by
  refine ⟨?_, by decide, by decide, by decide, by decide⟩
  intro s
  unfold validateEmail
  by_cases h1 : s = "" ∨ jsTrim s = ""
  · rw [if_pos h1]
    constructor
    · intro h
      exact absurd h (by simp)
    · rintro ⟨hne, _⟩
      rcases h1 with rfl | h1
      · exact absurd rfl hne
      · exact absurd h1 hne
  · rw [if_neg h1]
    push_neg at h1
    by_cases h2 : emailRegexTest s.data = true
    · simp only [h2, Bool.not_true, Bool.false_eq_true, if_false]
      exact ⟨fun _ => ⟨h1.2, (emailRegexTest_iff _).mp h2⟩, fun _ => by trivial⟩
    · have h2' : emailRegexTest s.data = false := by simpa using h2
      simp only [h2', Bool.not_false, if_true]
      constructor
      · intro h
        exact absurd h (by simp)
      · rintro ⟨_, hshape⟩
        exact absurd ((emailRegexTest_iff _).mpr hshape) (by simp [h2'])

/-- C8: the orchestrator is a pure function of its four inputs — two
invocations with identical form, session, message and an extensionally
identical deterministic client produce identical results, with no hidden
state. -/
theorem orchestrator_deterministic (form : FormDefinition) (session : Session)
    (userMessage : String) (client client' : LlmClient)
    (h : ∀ m, client m = client' m) :
    runLlmStep form session userMessage client =
      runLlmStep form session userMessage client' := by
  simp only [runLlmStep, h]

/-- Witness for C8 at concrete inputs. -/
theorem orchestrator_deterministic_witness :
    runLlmStep demoForm demoSession "hi" (clientReplying emptyExtractionReply) =
      runLlmStep demoForm demoSession "hi" (clientReplying emptyExtractionReply) :=
  orchestrator_deterministic demoForm demoSession "hi" _ _ (fun _ => rfl)

/-- C9: on a NUMBER field with any bounds, a string value that does not
coerce to a number (NaN) passes validation — every bound comparison
against NaN is false, so no constraint violation is reported. -/
theorem nan_number_vacuous_bounds (field : FormField) (s : String)
    (hty : field.type = FieldType.NUMBER) (hnan : jsStringToNumber s = none) :
    validateField field (.str s) = .valid := by
  rcases field with ⟨fid, fname, flabel, fty, freq, fvalidation, forder, fdesc⟩
  simp only at hty
  subst hty
  simp only [validateField, checkRequired, Bool.and_false, if_neg, ite_false,
    Bool.false_eq_true, if_false]
  simp only [validateNumberField, jsToNumber, hnan]
  rcases fvalidation with _ | ⟨mn, mx, pat, opts⟩
  · simp [validateNumber, validateNumberMax, jsLt]
  · rcases mn with _ | mn' <;> rcases mx with _ | (_ | q) <;>
      simp [validateNumber, validateNumberMax, jsLt]

/-- Witness for C9: the age field's 18..120 bounds do not reject "abc". -/
theorem nan_number_vacuous_bounds_witness :
    validateField ageField (.str "abc") = .valid :=
  nan_number_vacuous_bounds ageField "abc" rfl (by decide)

/-- C2: on a successful turn, a false completion flag comes with a
next-field name, which names a required form field whose id is outside
the union of already-collected and newly-extracted field identifiers and
whose display order is minimal among all such fields; a true completion
flag comes with no next-field name.  (Field names are unique within a
form — a data-model invariant.) -/
theorem next_field_spec (form : FormDefinition) (session : Session)
    (userMessage : String) (client : LlmClient) (res : OrchestratorResult)
    (hnames : (form.fields.map (fun f => f.name)).Nodup)
    (hok : runLlmStep form session userMessage client = .ok res) :
    (res.isComplete = true → res.nextField = none) ∧
    (res.isComplete = false →
      ∃ f ∈ form.fields, res.nextField = some f.name ∧ f.required = true ∧
        ¬(f.id ∈ session.fields.map (fun sf => sf.fieldId) ∨
          ∃ g ∈ form.fields, g.name ∈ recordKeys res.extractedFields ∧ g.id = f.id) ∧
        ∀ g ∈ form.fields, g.required = true →
          ¬(g.id ∈ session.fields.map (fun sf => sf.fieldId) ∨
            ∃ g' ∈ form.fields, g'.name ∈ recordKeys res.extractedFields ∧ g'.id = g.id) →
          f.order ≤ g.order) := by
  simp only [runLlmStep] at hok
  cases hparse : parseExtractedFields (client (llmStepMessages form session userMessage)) form with
  | error e => rw [hparse] at hok; exact absurd hok (by simp)
  | ok be =>
      obtain ⟨b, ef⟩ := be
      rw [hparse] at hok
      dsimp only at hok
      cases hentries : jsObjectEntries ef with
      | error m => rw [hentries] at hok; exact absurd hok (by simp)
      | ok entries =>
          rw [hentries] at hok
          dsimp only at hok
          cases hval : validateEntries form entries with
          | some e => rw [hval] at hok; exact absurd hok (by simp)
          | none =>
              rw [hval] at hok
              dsimp only at hok
              cases hhyp : buildHypFields form entries with
              | error e => rw [hhyp] at hok; exact absurd hok (by simp)
              | ok newFields =>
                  rw [hhyp] at hok
                  dsimp only at hok
                  injection hok with hok
                  subst hok
                  have hentfst : entries.map (fun e => e.1) = recordKeys ef :=
                    jsObjectEntries_fst ef entries hentries
                  have hnewids : newFields.map (fun sf => sf.fieldId) =
                      (recordKeys ef).filterMap
                        (fun name => (form.fields.find? (fun f => f.name == name)).map
                          (fun f => f.id)) := by
                    rw [buildHypFields_ids form entries newFields hhyp, ← hentfst,
                      List.filterMap_map]
                    rfl
                  have hmem : ∀ i : String,
                      i ∈ session.fields.map (fun sf => sf.fieldId) ++
                          newFields.map (fun sf => sf.fieldId) ↔
                      i ∈ session.fields.map (fun sf => sf.fieldId) ∨
                        ∃ g ∈ form.fields, g.name ∈ recordKeys ef ∧ g.id = i := by
                    intro i
                    rw [List.mem_append, hnewids, mem_resolvedIds_iff form _ i hnames]
                  constructor
                  · intro hc
                    dsimp only at hc ⊢
                    simp [hc]
                  · intro hc
                    dsimp only at hc ⊢
                    have hc0 := hc
                    unfold isFormComplete at hc
                    rw [List.all_eq_false] at hc
                    obtain ⟨f0, hf0mem, hf0p⟩ := hc
                    rw [List.mem_filter] at hf0mem
                    obtain ⟨hf0form, hf0req⟩ := hf0mem
                    have hf0notin : f0.id ∉
                        session.fields.map (fun sf => sf.fieldId) ++
                          (recordKeys ef).filterMap
                            (fun name => (form.fields.find? (fun f => f.name == name)).map
                              (fun f => f.id)) :=
                      fun hm => hf0p (List.elem_iff.mpr hm)
                    have htrans : ∀ i : String,
                        (((session.fields ++ newFields).map
                            (fun sf => sf.fieldId)).contains i = false) ↔
                        ¬(i ∈ session.fields.map (fun sf => sf.fieldId) ∨
                          ∃ g ∈ form.fields, g.name ∈ recordKeys ef ∧ g.id = i) := by
                      intro i
                      rw [contains_eq_false_iff, List.map_append]
                      constructor
                      · intro h hcontra
                        exact h ((hmem i).mpr hcontra)
                      · intro h hcontra
                        exact h ((hmem i).mp hcontra)
                    have hsorted := List.sorted_insertionSort byOrder form.fields
                    have hperm := List.perm_insertionSort byOrder form.fields
                    have hP0 : (fun field => field.required &&
                        !(((session.fields ++ newFields).map
                          (fun f => f.fieldId)).contains field.id)) f0 = true := by
                      simp only [Bool.and_eq_true, Bool.not_eq_true']
                      refine ⟨hf0req, ?_⟩
                      rw [htrans f0.id]
                      intro hcontra
                      apply hf0notin
                      rw [List.mem_append]
                      rcases hcontra with hm | hm
                      · exact Or.inl hm
                      · exact Or.inr ((mem_resolvedIds_iff form _ _ hnames).mpr hm)
                    have hex : ∃ x ∈ List.insertionSort byOrder form.fields,
                        (fun field => field.required &&
                          !(((session.fields ++ newFields).map
                            (fun f => f.fieldId)).contains field.id)) x = true :=
                      ⟨f0, (hperm.mem_iff).mpr hf0form, hP0⟩
                    obtain ⟨fstar, hfstar⟩ := Option.isSome_iff_exists.mp
                      (List.find?_isSome.mpr hex)
                    have hrefl : ∀ a : FormField, byOrder a a := fun a => le_refl a.order
                    obtain ⟨hPstar, hmemstar, hminstar⟩ :=
                      find?_sorted_min hrefl hsorted hfstar
                    simp only [Bool.and_eq_true, Bool.not_eq_true'] at hPstar
                    obtain ⟨hreqstar, hnotinstar⟩ := hPstar
                    refine ⟨fstar, (hperm.mem_iff).mp hmemstar, ?_, hreqstar, ?_, ?_⟩
                    · simp only [hc0, Bool.false_eq_true, if_false]
                      unfold determineNextField
                      dsimp only
                      rw [hfstar]
                      rfl
                    · exact (htrans fstar.id).mp hnotinstar
                    · intro g hgform hgreq hgnotin
                      have hPg : (fun field => field.required &&
                          !(((session.fields ++ newFields).map
                            (fun f => f.fieldId)).contains field.id)) g = true := by
                        simp only [Bool.and_eq_true, Bool.not_eq_true']
                        exact ⟨hgreq, (htrans g.id).mpr hgnotin⟩
                      exact hminstar g ((hperm.mem_iff).mpr hgform) hPg

/-- Witness for C2: with the full name collected and nothing newly
extracted, the orchestrator reports incomplete and asks for the email
field next. -/
theorem next_field_spec_witness :
    ∃ f ∈ demoForm.fields,
      ({ botResponse := JsValue.str "Hello!", extractedFields := JsValue.obj [],
         isComplete := false, nextField := some "email" } :
          OrchestratorResult).nextField = some f.name ∧ f.required = true ∧
      ¬(f.id ∈ demoSession.fields.map (fun sf => sf.fieldId) ∨
        ∃ g ∈ demoForm.fields, g.name ∈ recordKeys (JsValue.obj []) ∧ g.id = f.id) ∧
      ∀ g ∈ demoForm.fields, g.required = true →
        ¬(g.id ∈ demoSession.fields.map (fun sf => sf.fieldId) ∨
          ∃ g' ∈ demoForm.fields, g'.name ∈ recordKeys (JsValue.obj []) ∧ g'.id = g.id) →
        f.order ≤ g.order :=
  (next_field_spec demoForm demoSession "hi" (clientReplying emptyExtractionReply)
    { botResponse := JsValue.str "Hello!", extractedFields := JsValue.obj [],
      isComplete := false, nextField := some "email" }
    (by decide) rfl).2 rfl

/-- C3 (counterexample): at a parseable reply carrying both keys whose
extracted-values member is null, the interpreter's outcome is none of the
four claimed ones — neither a success nor any categorized client error. -/
theorem parse_fifth_outcome :
    isCategorizedOutcome (parseExtractedFields nullExtractedReply demoForm) = false :=
  rfl

/-- C3 (amended): the interpreter yields the four claimed outcomes —
invalid JSON when unparseable; the missing-required-fields error when the
reply-text or extracted-values key is absent; the unknown-field error
naming the first extracted key that is no field name; otherwise success
with the reply text and the mapping unchanged — provided the
extracted-values value is not null (a null one instead raises an
uncategorized runtime TypeError, the third conjunct). -/
theorem parse_classification (reply : RawReply) (form : FormDefinition) :
    (reply.parsed = none →
      parseExtractedFields reply form = .error (.client
        { message := "LLM returned invalid JSON", statusCode := 400,
          errorCode := "INVALID_LLM_RESPONSE",
          context := [("response", .str reply.content),
                      ("parseError", .str "SyntaxError")] })) ∧
    (∀ j, reply.parsed = some j →
      (jsHasKey "botResponse" j = false ∨ jsHasKey "extractedFields" j = false) →
      parseExtractedFields reply form = .error (.client
        { message := "LLM response missing required fields (botResponse, extractedFields)",
          statusCode := 400, errorCode := "INVALID_LLM_RESPONSE",
          context := [("response", .str reply.content)] })) ∧
    (∀ kvs, reply.parsed = some (.obj kvs) →
      jsHasKey "botResponse" (.obj kvs) = true →
      jsHasKey "extractedFields" (.obj kvs) = true →
      jsGetKey "extractedFields" (.obj kvs) = JsValue.null →
      parseExtractedFields reply form =
        .error (.typeError "TypeError: Cannot convert undefined or null to object")) ∧
    (∀ kvs keysPre k keysPost, reply.parsed = some (.obj kvs) →
      jsHasKey "botResponse" (.obj kvs) = true →
      jsHasKey "extractedFields" (.obj kvs) = true →
      jsObjectKeys (jsGetKey "extractedFields" (.obj kvs)) = .ok (keysPre ++ k :: keysPost) →
      (∀ k' ∈ keysPre, k' ∈ form.fields.map (fun f => f.name)) →
      k ∉ form.fields.map (fun f => f.name) →
      parseExtractedFields reply form = .error (.client
        { message := "Field not in form definition", statusCode := 400,
          errorCode := "UNKNOWN_FIELD",
          context := [("fieldName", .str k), ("formId", .str form.id)] })) ∧
    (∀ kvs keys, reply.parsed = some (.obj kvs) →
      jsHasKey "botResponse" (.obj kvs) = true →
      jsHasKey "extractedFields" (.obj kvs) = true →
      jsObjectKeys (jsGetKey "extractedFields" (.obj kvs)) = .ok keys →
      (∀ k ∈ keys, k ∈ form.fields.map (fun f => f.name)) →
      parseExtractedFields reply form =
        .ok (jsGetKey "botResponse" (.obj kvs), jsGetKey "extractedFields" (.obj kvs))) := by
  refine ⟨?_, ?_, ?_, ?_, ?_⟩
  · intro h
    simp [parseExtractedFields, h]
  · intro j hj hmiss
    have hcond : (jsTruthy j && jsTypeof j == "object" &&
        jsHasKey "botResponse" j && jsHasKey "extractedFields" j) = false := by
      rcases hmiss with h | h <;> simp [h]
    simp [parseExtractedFields, hj, hcond]
  · intro kvs hj hb he hnull
    have hcond : (jsTruthy (JsValue.obj kvs) && jsTypeof (JsValue.obj kvs) == "object" &&
        jsHasKey "botResponse" (JsValue.obj kvs) &&
        jsHasKey "extractedFields" (JsValue.obj kvs)) = true := by
      simp [hb, he, jsTruthy, jsTypeof]
    simp only [parseExtractedFields, hj, hcond, Bool.not_true, Bool.false_eq_true,
      if_false, hnull]
    rfl
  · intro kvs keysPre k keysPost hj hb he hkeys hpre hk
    have hcond : (jsTruthy (JsValue.obj kvs) && jsTypeof (JsValue.obj kvs) == "object" &&
        jsHasKey "botResponse" (JsValue.obj kvs) &&
        jsHasKey "extractedFields" (JsValue.obj kvs)) = true := by
      simp [hb, he, jsTruthy, jsTypeof]
    have hfind : ((keysPre ++ k :: keysPost).find?
        (fun k' => !(form.fields.map (fun f => f.name)).contains k')) = some k := by
      apply find?_append_first
      · intro x hx
        have := hpre x hx
        simp [List.elem_iff, this]
      · simp [List.elem_iff, hk]
    simp only [parseExtractedFields, hj, hcond, Bool.not_true, Bool.false_eq_true,
      if_false, hkeys]
    rw [hfind]
  · intro kvs keys hj hb he hkeys hall
    have hcond : (jsTruthy (JsValue.obj kvs) && jsTypeof (JsValue.obj kvs) == "object" &&
        jsHasKey "botResponse" (JsValue.obj kvs) &&
        jsHasKey "extractedFields" (JsValue.obj kvs)) = true := by
      simp [hb, he, jsTruthy, jsTypeof]
    have hfind : (keys.find?
        (fun k' => !(form.fields.map (fun f => f.name)).contains k')) = none := by
      rw [List.find?_eq_none]
      intro x hx
      simp [List.elem_iff, hall x hx]
    simp only [parseExtractedFields, hj, hcond, Bool.not_true, Bool.false_eq_true,
      if_false, hkeys]
    rw [hfind]

/-- Witness for C3's amended classification: a well-shaped reply with an
empty extraction map succeeds, passing reply text and mapping through
unchanged. -/
theorem parse_classification_witness :
    parseExtractedFields { content := "demo", parsed := some emptyExtractionReply } demoForm =
      .ok (.str "Hello!", .obj []) :=
  (parse_classification { content := "demo", parsed := some emptyExtractionReply }
      demoForm).2.2.2.2
    [("botResponse", .str "Hello!"), ("extractedFields", .obj [])] [] rfl rfl rfl rfl
    (by simp)

/-- C4: when some extracted value fails its field's validator, the
orchestrator returns no result at all: the turn aborts with a single
categorized client error whose message is the first failing field's own
validator reason and whose context carries the field name, the raw value
and the form id; failures are never aggregated. -/
theorem validation_failure_fail_fast (form : FormDefinition) (session : Session)
    (userMessage : String) (client : LlmClient) (b ef : JsValue)
    (pre post : List (String × JsValue)) (n : String) (v : JsValue)
    (fd : FormField) (msg : String)
    (hparse : parseExtractedFields (client (llmStepMessages form session userMessage)) form =
      .ok (b, ef))
    (hentries : jsObjectEntries ef = .ok (pre ++ (n, v) :: post))
    (hpre : ∀ p ∈ pre, ∃ fd', fieldMapGet form p.1 = some fd' ∧
      validateField fd' p.2 = .valid)
    (hfd : fieldMapGet form n = some fd)
    (hfail : validateField fd v = .invalid msg) :
    runLlmStep form session userMessage client =
      .error (.client
        { message := msg, statusCode := 400, errorCode := "VALIDATION_ERROR",
          context := [("fieldName", .str n), ("value", v), ("formId", .str form.id)] }) := by
  simp only [runLlmStep, hparse]
  simp only [hentries]
  rw [validateEntries_append form pre post n v fd msg hpre hfd hfail]

/-- Witness for C4: an age of 17 against the 18..120 bounds aborts the
turn with the number validator's own reason. -/
theorem validation_failure_fail_fast_witness :
    runLlmStep demoForm demoSession "msg" (clientReplying ageExtractionReply) =
      .error (.client
        { message := "Number must be at least 18", statusCode := 400,
          errorCode := "VALIDATION_ERROR",
          context := [("fieldName", .str "age"), ("value", .num (some 17)),
                      ("formId", .str "form_demo")] }) :=
  validation_failure_fail_fast demoForm demoSession "msg" (clientReplying ageExtractionReply)
    (.str "Noted.") (.obj [("age", .num (some 17))]) [] [] "age" (.num (some 17)) ageField
    "Number must be at least 18" rfl rfl (by simp) rfl (by decide)

/-- C10: a parseable reply carrying both keys but a null extracted-values
member passes the interpreter's shape check (which only tests key
presence) and then crashes with an uncategorized runtime TypeError while
enumerating the mapping's keys, for every form. -/
theorem null_extractedFields_type_error (form : FormDefinition) :
    parseExtractedFields nullExtractedReply form =
      .error (.typeError "TypeError: Cannot convert undefined or null to object") :=
  rfl

end Flowform
